import Mathlib

/-!
Shallow embedding of the knowledge-base review pipeline of `onyx_crmv2`
(`src/db_utils.py` and `src/migrate.py`), together with theorems settling
the frozen claims about it.

Modelling conventions:
* Python/JSON values are the inductive `Json`; numbers are modelled as
  integers (the code never computes with metadata numbers, it only moves
  them around, so the numeric payload type is irrelevant to every claim).
* Python dictionaries are association lists with unique keys in practice;
  lookups take the first matching entry, in-place assignment replaces the
  first matching entry.
* The Chroma collections are association lists from string ids to stored
  values; `upsertAssoc` is create-or-replace-in-place, `deleteAssoc`
  removes the id, mirroring the store contract the code relies on.
* The embedding provider (`SentenceTransformer.encode`) is an abstract
  deterministic function `String → List Int`; distances are squared
  euclidean distances over those integer vectors.
* Fallible Python code (raised exceptions) is embedded with `Except`.
* The digit class of the search regex is modelled as the ASCII digits
  (Python's `\d` also matches other Unicode decimal digits; no claim
  turns on those).
-/

/-- JSON-decoded Python values (numbers modelled as integers). -/
inductive Json where
  | null : Json
  | bool : Bool → Json
  | num  : Int → Json
  | str  : String → Json
  | arr  : List Json → Json
  | obj  : List (String × Json) → Json
deriving Repr

/-- A Python dictionary with string keys: an association list. -/
abbrev Rec := List (String × Json)

/-- First-match association lookup (Python `d[k]` / `d.get(k)`). -/
def lookAssoc {V : Type} : List (String × V) → String → Option V
  | [], _ => none
  | (k', v) :: s, k => if k' = k then some v else lookAssoc s k

/-- Create-or-replace-in-place (Python `d[k] = v`, Chroma `upsert`). -/
def upsertAssoc {V : Type} : List (String × V) → String → V → List (String × V)
  | [], k, v => [(k, v)]
  | (k', v') :: s, k, v => if k' = k then (k', v) :: s else (k', v') :: upsertAssoc s k v

/-- Remove a key (Python `d.pop(k, None)` effect, Chroma `delete`). -/
def eraseAssoc {V : Type} (s : List (String × V)) (k : String) : List (String × V) :=
  s.filter (fun p => ¬ (p.1 = k))

/-- The keys of an association list, in order. -/
def keysAssoc {V : Type} (s : List (String × V)) : List String :=
  s.map Prod.fst

/-- Number of entries stored under a key. -/
def countKey {V : Type} (s : List (String × V)) (k : String) : Nat :=
  (s.filter (fun p => p.1 = k)).length

/-- Apply a sequence of keyed upserts from left to right. -/
def applyUpserts {V : Type} (s : List (String × V)) (L : List (String × V)) :
    List (String × V) :=
  L.foldl (fun t p => upsertAssoc t p.1 p.2) s

/-- The last value a sequence of upserts assigns to a key, if any. -/
def lastVal {V : Type} : List (String × V) → String → Option V
  | [], _ => none
  | p :: L, k =>
    match lastVal L k with
    | some v => some v
    | none => if p.1 = k then some p.2 else none

/-- Python truthiness of a JSON value (`if v:`). -/
def truthy : Json → Bool
  | Json.null => false
  | Json.bool b => b
  | Json.num n => n ≠ 0
  | Json.str s => s ≠ ""
  | Json.arr l => ¬ l.isEmpty
  | Json.obj l => ¬ l.isEmpty

/-- Minimal JSON-string escaping used by `json.dumps`. -/
def escChar (c : Char) : String :=
  if c = '"' then "\\\"" else if c = '\\' then "\\\\" else String.mk [c]

mutual
/-- `json.dumps(v, ensure_ascii=False)` with Python's default separators. -/
def dumps : Json → String
  | Json.null => "null"
  | Json.bool true => "true"
  | Json.bool false => "false"
  | Json.num n => toString n
  | Json.str s => "\"" ++ String.join (s.data.map escChar) ++ "\""
  | Json.arr xs => "[" ++ dumpsList xs ++ "]"
  | Json.obj fs => "\x7b" ++ dumpsFields fs ++ "\x7d"

/-- Comma-separated serialization of an array's elements. -/
def dumpsList : List Json → String
  | [] => ""
  | [x] => dumps x
  | x :: xs => dumps x ++ ", " ++ dumpsList xs

/-- Comma-separated serialization of an object's fields. -/
def dumpsFields : List (String × Json) → String
  | [] => ""
  | [(k, v)] => "\"" ++ k ++ "\": " ++ dumps v
  | (k, v) :: fs => "\"" ++ k ++ "\": " ++ dumps v ++ ", " ++ dumpsFields fs
end

/-- Python `str(v)` / f-string rendering of a JSON value (container
rendering approximated by JSON syntax; no claim exercises it). -/
def pyStr : Json → String
  | Json.null => "None"
  | Json.bool true => "True"
  | Json.bool false => "False"
  | Json.num n => toString n
  | Json.str s => s
  | v => dumps v

/-- Python `str.strip()`: drop ASCII whitespace from both ends (written
over the character list so it computes by `rfl`). -/
def pyStrip (s : String) : String :=
  String.mk (((s.data.dropWhile Char.isWhitespace).reverse.dropWhile Char.isWhitespace).reverse)

/-- `d.get(k, '')` rendered into an f-string: the stored value (even
`None`) when the key is present, the empty string when it is missing. -/
def getS (r : Rec) (k : String) : String :=
  match lookAssoc r k with
  | some v => pyStr v
  | none => ""

-- Basic association-list lemmas.

theorem lookAssoc_upsert_self {V : Type} (s : List (String × V)) (k : String) (v : V) :
    lookAssoc (upsertAssoc s k v) k = some v := by
  induction s with
  | nil => simp [upsertAssoc, lookAssoc]
  | cons p s ih =>
    by_cases h : p.1 = k
    · simp [upsertAssoc, h, lookAssoc]
    · simp [upsertAssoc, h, lookAssoc, ih]

theorem keysAssoc_cons {V : Type} (a : String) (b : V) (s : List (String × V)) :
    keysAssoc ((a, b) :: s) = a :: keysAssoc s := rfl

theorem lookAssoc_upsert_ne {V : Type} (s : List (String × V)) (k k' : String) (v : V)
    (h : k ≠ k') : lookAssoc (upsertAssoc s k v) k' = lookAssoc s k' := by
  induction s with
  | nil => simp [upsertAssoc, lookAssoc, h]
  | cons p s ih =>
    obtain ⟨a, b⟩ := p
    by_cases hp : a = k
    · subst hp
      simp [upsertAssoc, lookAssoc, h]
    · simp only [upsertAssoc, if_neg hp, lookAssoc]
      by_cases hp' : a = k'
      · simp [hp']
      · simp [hp', ih]

theorem keysAssoc_upsert_of_mem {V : Type} (s : List (String × V)) (k : String) (v : V)
    (h : k ∈ keysAssoc s) : keysAssoc (upsertAssoc s k v) = keysAssoc s := by
  induction s with
  | nil => cases h
  | cons p s ih =>
    obtain ⟨a, b⟩ := p
    by_cases hp : a = k
    · subst hp
      simp [upsertAssoc, keysAssoc_cons]
    · rw [keysAssoc_cons] at h
      rcases List.mem_cons.mp h with h1 | h2
      · exact absurd h1.symm hp
      · simp [upsertAssoc, hp, keysAssoc_cons, ih h2]

theorem mem_keysAssoc_upsert_self {V : Type} (s : List (String × V)) (k : String) (v : V) :
    k ∈ keysAssoc (upsertAssoc s k v) := by
  induction s with
  | nil => simp [upsertAssoc, keysAssoc]
  | cons p s ih =>
    obtain ⟨a, b⟩ := p
    by_cases hp : a = k
    · subst hp
      simp [upsertAssoc, keysAssoc_cons]
    · simp only [upsertAssoc, if_neg hp, keysAssoc_cons]
      exact List.mem_cons.mpr (Or.inr ih)

theorem mem_keysAssoc_upsert_of_mem {V : Type} (s : List (String × V)) (k k' : String)
    (v : V) (h : k' ∈ keysAssoc s) : k' ∈ keysAssoc (upsertAssoc s k v) := by
  induction s with
  | nil => cases h
  | cons p s ih =>
    obtain ⟨a, b⟩ := p
    rw [keysAssoc_cons] at h
    by_cases hp : a = k
    · subst hp
      simp only [upsertAssoc, if_pos rfl, keysAssoc_cons]
      exact h
    · simp only [upsertAssoc, if_neg hp, keysAssoc_cons]
      rcases List.mem_cons.mp h with h1 | h2
      · exact List.mem_cons.mpr (Or.inl h1)
      · exact List.mem_cons.mpr (Or.inr (ih h2))

theorem length_upsert_of_mem {V : Type} (s : List (String × V)) (k : String) (v : V)
    (h : k ∈ keysAssoc s) : (upsertAssoc s k v).length = s.length := by
  induction s with
  | nil => cases h
  | cons p s ih =>
    obtain ⟨a, b⟩ := p
    by_cases hp : a = k
    · subst hp
      simp [upsertAssoc]
    · rw [keysAssoc_cons] at h
      rcases List.mem_cons.mp h with h1 | h2
      · exact absurd h1.symm hp
      · simp [upsertAssoc, hp, ih h2]

theorem applyUpserts_nil {V : Type} (s : List (String × V)) : applyUpserts s [] = s := rfl

theorem applyUpserts_cons {V : Type} (s : List (String × V)) (p : String × V)
    (L : List (String × V)) :
    applyUpserts s (p :: L) = applyUpserts (upsertAssoc s p.1 p.2) L := rfl

theorem applyUpserts_append {V : Type} (s : List (String × V))
    (L1 L2 : List (String × V)) :
    applyUpserts s (L1 ++ L2) = applyUpserts (applyUpserts s L1) L2 := by
  simp [applyUpserts, List.foldl_append]

/-- After a run of upserts, a key holds the last value the run wrote to it,
or its old value if the run never touched it. -/
theorem lookAssoc_applyUpserts {V : Type} (L : List (String × V))
    (s : List (String × V)) (k : String) :
    lookAssoc (applyUpserts s L) k =
      match lastVal L k with
      | some v => some v
      | none => lookAssoc s k := by
  induction L generalizing s with
  | nil => simp [applyUpserts, lastVal]
  | cons p L ih =>
    rw [applyUpserts_cons, ih]
    cases hl : lastVal L k with
    | some v => simp [lastVal, hl]
    | none =>
      by_cases hp : p.1 = k
      · subst hp
        simp [lastVal, hl, lookAssoc_upsert_self]
      · simp [lastVal, hl, hp, lookAssoc_upsert_ne s p.1 k p.2 hp]

/-- Keys already present survive any run of upserts. -/
theorem mem_keysAssoc_applyUpserts_of_mem {V : Type} (L : List (String × V))
    (s : List (String × V)) (k : String) (h : k ∈ keysAssoc s) :
    k ∈ keysAssoc (applyUpserts s L) := by
  induction L generalizing s with
  | nil => exact h
  | cons p L ih =>
    rw [applyUpserts_cons]
    exact ih _ (mem_keysAssoc_upsert_of_mem s p.1 k p.2 h)

/-- Every key a run of upserts writes is present afterwards. -/
theorem mem_keysAssoc_applyUpserts {V : Type} (L : List (String × V))
    (s : List (String × V)) (k : String) (h : k ∈ keysAssoc L) :
    k ∈ keysAssoc (applyUpserts s L) := by
  induction L generalizing s with
  | nil => cases h
  | cons p L ih =>
    obtain ⟨a, b⟩ := p
    rw [keysAssoc_cons] at h
    rw [applyUpserts_cons]
    rcases List.mem_cons.mp h with h1 | h2
    · subst h1
      exact mem_keysAssoc_applyUpserts_of_mem L _ k (mem_keysAssoc_upsert_self s k b)
    · exact ih _ h2

/-- A run of upserts whose keys are all already present neither adds nor
removes entries: the key sequence of the store is unchanged. -/
theorem keysAssoc_applyUpserts_of_sub {V : Type} (L : List (String × V))
    (s : List (String × V)) (h : ∀ k ∈ keysAssoc L, k ∈ keysAssoc s) :
    keysAssoc (applyUpserts s L) = keysAssoc s := by
  induction L generalizing s with
  | nil => rfl
  | cons p L ih =>
    rw [applyUpserts_cons]
    have hp : p.1 ∈ keysAssoc s := h p.1 (by rw [keysAssoc_cons]; exact List.mem_cons_self _ _)
    have hk := keysAssoc_upsert_of_mem s p.1 p.2 hp
    rw [ih (upsertAssoc s p.1 p.2) (fun k hk2 => by
      rw [hk]
      exact h k (by rw [keysAssoc_cons]; exact List.mem_cons.mpr (Or.inr hk2)))]
    exact hk

/-- Replaying the same run of upserts is observationally idempotent: the
second run changes neither the number of entries, nor the key sequence,
nor any stored value. -/
theorem applyUpserts_idem {V : Type} (L : List (String × V)) (s : List (String × V)) :
    keysAssoc (applyUpserts (applyUpserts s L) L) = keysAssoc (applyUpserts s L) ∧
    ∀ k, lookAssoc (applyUpserts (applyUpserts s L) L) k =
        lookAssoc (applyUpserts s L) k := by
  constructor
  · exact keysAssoc_applyUpserts_of_sub L (applyUpserts s L)
      (fun k hk => mem_keysAssoc_applyUpserts L s k hk)
  · intro k
    rw [lookAssoc_applyUpserts, lookAssoc_applyUpserts]
    cases hl : lastVal L k with
    | some v => simp [hl]
    | none => simp [hl, lookAssoc_applyUpserts]

-- ===== Embedding of src/db_utils.py =====

/-- A live-collection record: its embedding vector and its metadata. -/
abbrev VLive := List Int × Rec

/-- The live collection (`live_errors_kb`), keyed by `message_number`. -/
abbrev LiveStore := List (String × VLive)

/-- A pending-collection record: its metadata and its document text. -/
abbrev VPend := Rec × String

/-- The pending collection (`pending_errors_kb`), keyed by `review_id`. -/
abbrev PendStore := List (String × VPend)

/-- `True` exactly on `None` (`v is None`). -/
def isNull : Json → Bool
  | Json.null => true
  | _ => false

/-- A fresh review id. The code draws `review_<uuid4().hex[:8]>`; freshness
is modelled by a counter threaded through the calls, so ids generated by
distinct draws are distinct, exactly the property `uuid4` provides. -/
def freshId (ctr : Nat) : String :=
  "review_" ++ toString ctr

/-- `submit_solution_for_review_db` (src/db_utils.py lines 77-95): reuse a
truthy `review_id` or draw a fresh one, build the document text, drop
`None`-valued fields, force `review_id` into the metadata, and upsert the
pending collection under the review id. Returns the new store, the new
counter state, and the id used. -/
def submit_solution_for_review_db (pending : PendStore) (ctr : Nat) (new_entry : Rec) :
    PendStore × Nat × String :=
  let drawn : String × Nat :=
    match lookAssoc new_entry "review_id" with
    | some v => if truthy v then (pyStr v, ctr) else (freshId ctr, ctr + 1)
    | none => (freshId ctr, ctr + 1)
  let review_id := drawn.1
  let document_text :=
    "Error " ++ getS new_entry "message_number" ++ ": " ++ getS new_entry "message_text"
  let clean_metadata := new_entry.filter (fun p => !isNull p.2)
  let clean_metadata := upsertAssoc clean_metadata "review_id" (Json.str review_id)
  (upsertAssoc pending review_id (clean_metadata, document_text), drawn.2, review_id)

/-- Result of a call to `approve_solution_db`: the caller's dictionary
after the call (the function mutates it in place via `pop`), and either
the updated stores or the raised exception. -/
structure ApproveOut where
  callerRec : Rec
  outcome : Except String (LiveStore × PendStore)

/-- `approve_solution_db` (src/db_utils.py lines 96-110): pop `review_id`
from the caller's dict, embed `message_text + " " + reason`, write the
record into the live collection under `str(solution["message_number"])`
(a `KeyError` is raised there when the key is absent, before any store
write), then delete the pending record when the popped id is truthy.
`live_collection.add` is modelled as create-or-replace, the last-write-wins
behaviour the spec records for approval into an occupied key. -/
def approve_solution_db (m : String → List Int) (live : LiveStore) (pending : PendStore)
    (solution : Rec) : ApproveOut :=
  let ridOpt := lookAssoc solution "review_id"
  let sol := eraseAssoc solution "review_id"
  let text_to_embed := getS sol "message_text" ++ " " ++ getS sol "reason"
  let embedding := m text_to_embed
  match lookAssoc sol "message_number" with
  | none => ⟨sol, Except.error "KeyError: message_number"⟩
  | some mn =>
    let live' := upsertAssoc live (pyStr mn) (embedding, sol)
    let pending' :=
      match ridOpt with
      | some v => if truthy v then eraseAssoc pending (pyStr v) else pending
      | none => pending
    ⟨sol, Except.ok (live', pending')⟩

/-- Accumulate the maximal digit runs of a character stream; `cur` holds
the digits of the run in progress, reversed. -/
def runsAux (cur : List Char) : List Char → List (List Char)
  | [] => if cur.isEmpty then [] else [cur.reverse]
  | c :: cs =>
    if c.isDigit then runsAux (c :: cur) cs
    else if cur.isEmpty then runsAux [] cs
    else cur.reverse :: runsAux [] cs

/-- `re.findall(r'\d\x7b3,\x7d', s)`: the maximal digit runs of `s` of
length at least 3, in order of occurrence. -/
def digitRuns (s : String) : List String :=
  ((runsAux [] s.data).filter (fun r => 3 ≤ r.length)).map (fun r => String.mk r)

/-- The first digit run of length ≥ 3, the candidate exact-match key. -/
def firstNumRun (s : String) : Option String :=
  (digitRuns s).head?

/-- Squared euclidean distance between two embedding vectors. -/
def sqDist (u v : List Int) : Int :=
  (List.zipWith (fun a b => (a - b) * (a - b)) u v).foldl (fun a b => a + b) 0

/-- Stable insertion of `x` into a list sorted by ascending `key`:
an element with an equal key keeps its earlier position. -/
def insertLE {α : Type} (key : α → Int) (x : α) : List α → List α
  | [] => [x]
  | y :: ys => if key y < key x then y :: insertLE key x ys else x :: y :: ys

/-- Stable sort by ascending `key` (insertion sort). -/
def sortLE {α : Type} (key : α → Int) : List α → List α
  | [] => []
  | x :: xs => insertLE key x (sortLE key xs)

/-- The shape of a Chroma `query()` / formatted `get()` result: the
exact-match path of `search_errors_db` builds a dict with no `ids` key,
hence the `Option`. -/
structure QueryResult where
  qids : Option (List (List String))
  metadatas : List (List Rec)
  distances : List (List Int)

/-- `live_collection.query(query_texts=[query], n_results=n)`: embed the
query with the collection's embedding function, rank all live records by
ascending distance (ties kept in insertion order), and return the first
`n`. -/
def semanticQuery (m : String → List Int) (live : LiveStore) (q : String) (n : Nat) :
    QueryResult :=
  let qv := m q
  let ranked := sortLE (fun e => sqDist qv e.2.1) live
  let top := ranked.take n
  ⟨some [keysAssoc top], [top.map (fun e => e.2.2)], [top.map (fun e => sqDist qv e.2.1)]⟩

/-- `search_errors_db` (src/db_utils.py lines 118-143): strip the query,
take the first digit run of length ≥ 3 as a candidate id; on an exact hit
in the live collection return that single record with distance 0;
otherwise run the semantic query and return `none` when it comes back
empty. -/
def search_errors_db (m : String → List Int) (live : LiveStore) (query : String)
    (n_results : Nat) : Option QueryResult :=
  let cleaned_query := pyStrip query
  let direct : Option QueryResult :=
    match firstNumRun cleaned_query with
    | some number_id =>
      match lookAssoc live number_id with
      | some pr => some ⟨none, [[pr.2]], [[0]]⟩
      | none => none
    | none => none
  match direct with
  | some r => some r
  | none =>
    let results := semanticQuery m live query n_results
    match results.qids with
    | some (ids0 :: _) => if ids0.isEmpty then none else some results
    | _ => none

/-- The number of records a `search_errors_db` result carries. -/
def resultCount : Option QueryResult → Nat
  | none => 0
  | some r => (r.metadatas.headD []).length

-- ===== Embedding of src/migrate.py =====
-- The file concatenates two revisions of the script; Python executes both,
-- so the later definitions shadow the earlier ones at runtime. Both
-- revisions of `migrate_live` are embedded (`processLiveItemV1` from lines
-- 139-160, `processLiveItemV2` from lines 387-404) because different
-- claims cite each.

/-- Build a dict from a sequence of key/value pairs, later pairs winning,
as Python's `dict(iterable)` does. -/
def pyDictFrom (acc : Rec) : List Json → Except String Rec
  | [] => Except.ok acc
  | Json.arr [Json.str k, v] :: rest => pyDictFrom (upsertAssoc acc k v) rest
  | _ :: _ => Except.error "dict() conversion failed"

/-- Python `dict(item)` on a JSON-decoded value: a dict is copied, a list
of two-element pairs is accepted, the empty string and empty list give an
empty dict, and every other value raises (`TypeError`/`ValueError`). -/
def pyDict : Json → Except String Rec
  | Json.obj fields => Except.ok fields
  | Json.arr elems => pyDictFrom [] elems
  | Json.str s => if s = "" then Except.ok [] else Except.error "dict() conversion failed"
  | _ => Except.error "dict() conversion failed"

/-- Per-value coercion inside `coerce_metadata`: `None` is dropped,
flat scalars pass unchanged, everything else is `json.dumps`-serialized. -/
def coerceVal : Json → Option Json
  | Json.null => none
  | Json.str s => some (Json.str s)
  | Json.num n => some (Json.num n)
  | Json.bool b => some (Json.bool b)
  | v => some (Json.str (dumps v))

/-- The field-wise body of `coerce_metadata` on an already-built dict. -/
def coerceMeta (r : Rec) : Rec :=
  r.filterMap (fun p => (coerceVal p.2).map (fun v => (p.1, v)))

/-- `coerce_metadata` (src/migrate.py lines 97-113): non-dicts give an
empty mapping; dict entries are dropped when `None`, kept when flat
scalars, serialized to JSON strings otherwise. Never raises. -/
def coerce_metadata : Json → Rec
  | Json.obj fields => coerceMeta fields
  | _ => []

/-- Per-item body of the first `migrate_live` (src/migrate.py lines
139-160): copy the item as a dict, pop `embedding` and `review_id`,
raise when `message_number` is `None`/absent, build the embedding text
with the `"Message #<id>"` fallback, and keep `(str(msg_no), text,
coerce_metadata(item))`. -/
def processLiveItemV1 (item : Json) : Except String (String × String × Rec) :=
  match pyDict item with
  | Except.error e => Except.error e
  | Except.ok d0 =>
    let d1 := eraseAssoc (eraseAssoc d0 "embedding") "review_id"
    match lookAssoc d1 "message_number" with
    | none => Except.error "missing message_number"
    | some v =>
      if isNull v then Except.error "missing message_number"
      else
        let text0 := pyStrip (getS d1 "message_text" ++ " " ++ getS d1 "reason")
        let text := if text0 = "" then "Message #" ++ pyStr v else text0
        Except.ok (pyStr v, text, coerceMeta d1)

/-- Per-item body of the second `migrate_live` (src/migrate.py lines
387-404): same as the first revision except that `review_id` is NOT
popped and the `message_number` test is Python falsiness (`not msg_no`)
rather than `is None`. -/
def processLiveItemV2 (item : Json) : Except String (String × String × Rec) :=
  match pyDict item with
  | Except.error e => Except.error e
  | Except.ok d0 =>
    let d1 := eraseAssoc d0 "embedding"
    match lookAssoc d1 "message_number" with
    | none => Except.error "missing message_number"
    | some v =>
      if truthy v then
        let text0 := pyStrip (getS d1 "message_text" ++ " " ++ getS d1 "reason")
        let text := if text0 = "" then "Message #" ++ pyStr v else text0
        Except.ok (pyStr v, text, coerceMeta d1)
      else Except.error "missing message_number"

/-- The buffer loop of `chunked` (src/migrate.py lines 87-95): push each
element onto the buffer and flush it as a chunk once it reaches `size`;
a non-empty leftover buffer is flushed at the end. -/
def chunkedAux {α : Type} (size : Nat) (buf : List α) : List α → List (List α)
  | [] => if buf.isEmpty then [] else [buf.reverse]
  | x :: xs =>
    if size ≤ (x :: buf).length then (x :: buf).reverse :: chunkedAux size [] xs
    else chunkedAux size (x :: buf) xs

/-- `chunked(iterable, size)` (src/migrate.py lines 87-95): split a list
into consecutive chunks of `size` elements, last chunk partial. The code
calls it with `BATCH_SIZE = 128`. -/
def chunked {α : Type} (size : Nat) (l : List α) : List (List α) :=
  chunkedAux size [] l

/-- `True` on a successful `Except` outcome. -/
def exOk {ε α : Type} : Except ε α → Bool
  | Except.ok _ => true
  | Except.error _ => false

/-- The inner per-item loop of a live batch: surviving rows in order and
the number of items skipped by the per-item `except` branch. -/
def liveBatchRows (f : Json → Except String (String × String × Rec)) :
    List Json → List (String × String × Rec) × Nat
  | [] => ([], 0)
  | item :: rest =>
    match f item with
    | Except.ok r => (r :: (liveBatchRows f rest).1, (liveBatchRows f rest).2)
    | Except.error _ => ((liveBatchRows f rest).1, (liveBatchRows f rest).2 + 1)

/-- Running state of a live migration: the live store and the
`(ok, skipped)` counters the function reports. -/
structure LiveRun where
  store : LiveStore
  okCount : Nat
  skipped : Nat
deriving Repr

/-- The chunked driver shared by both revisions of `migrate_live`
(src/migrate.py lines 135-177 and 384-422): per chunk, run the per-item
loop, encode the surviving texts with the embedding model, and upsert the
chunk into the live collection; `ok` counts upserted rows, `skipped`
counts per-item failures. Store transport failures are outside the model. -/
def migrateLiveCore (m : String → List Int)
    (f : Json → Except String (String × String × Rec))
    (init : LiveRun) (data : List Json) : LiveRun :=
  (chunked 128 data).foldl
    (fun acc batch =>
      let rows := liveBatchRows f batch
      let ops := rows.1.map (fun r => (r.1, (m r.2.1, r.2.2)))
      ⟨applyUpserts acc.store ops, acc.okCount + rows.1.length, acc.skipped + rows.2⟩)
    init

/-- The first revision of `migrate_live` (src/migrate.py lines 118-177). -/
def migrate_live_v1 (m : String → List Int) (init : LiveRun) (data : List Json) : LiveRun :=
  migrateLiveCore m processLiveItemV1 init data

/-- The second revision of `migrate_live` (src/migrate.py lines 370-422),
the one in force after the file is executed top to bottom. -/
def migrate_live_v2 (m : String → List Int) (init : LiveRun) (data : List Json) : LiveRun :=
  migrateLiveCore m processLiveItemV2 init data

/-- The upsert sequence a whole live migration run performs. -/
def liveOps (m : String → List Int)
    (f : Json → Except String (String × String × Rec)) (data : List Json) :
    List (String × VLive) :=
  data.filterMap (fun item =>
    match f item with
    | Except.ok r => some (r.1, (m r.2.1, r.2.2))
    | Except.error _ => none)

/-- Per-item id assignment of `migrate_pending` (src/migrate.py lines
198-205 / 439-447): a truthy `review_id` is reused as the id, otherwise a
fresh `review_<uuid>` is drawn (modelled by the counter); a non-dict item
raises at `item.get` and is skipped. -/
def pendingItemId (ctr : Nat) : Json → Except String (String × Nat)
  | Json.obj fields =>
    match lookAssoc fields "review_id" with
    | some v =>
      if truthy v then Except.ok (pyStr v, ctr) else Except.ok (freshId ctr, ctr + 1)
    | none => Except.ok (freshId ctr, ctr + 1)
  | _ => Except.error "AttributeError: get"

/-- The inner per-item loop of a pending batch: `(rows, skipped, ctr')`. -/
def pendingBatchRows (ctr : Nat) : List Json → List (String × Rec) × Nat × Nat
  | [] => ([], 0, ctr)
  | item :: rest =>
    match pendingItemId ctr item with
    | Except.ok (rid, ctr1) =>
      let acc := pendingBatchRows ctr1 rest
      ((rid, coerce_metadata item) :: acc.1, acc.2.1, acc.2.2)
    | Except.error _ =>
      let acc := pendingBatchRows ctr rest
      (acc.1, acc.2.1 + 1, acc.2.2)

/-- Running state of a pending migration: the metadata-only pending store,
the `(ok, skipped)` counters and the fresh-id counter. -/
structure PendingRun where
  store : List (String × Rec)
  okCount : Nat
  skipped : Nat
  ctr : Nat
deriving Repr

/-- `migrate_pending` (src/migrate.py lines 179-219 / 423-461): per chunk,
assign ids, coerce metadata, and upsert the chunk (no embeddings). -/
def migrate_pending (init : PendingRun) (data : List Json) : PendingRun :=
  (chunked 128 data).foldl
    (fun acc batch =>
      let rows := pendingBatchRows acc.ctr batch
      ⟨applyUpserts acc.store rows.1, acc.okCount + rows.1.length,
        acc.skipped + rows.2.1, rows.2.2⟩)
    init

-- ===== Pipeline characterization lemmas =====

theorem chunkedAux_join {α : Type} (size : Nat) (l buf : List α) :
    (chunkedAux size buf l).flatten = buf.reverse ++ l := by
  induction l generalizing buf with
  | nil =>
    cases buf with
    | nil => simp [chunkedAux]
    | cons b bs => simp [chunkedAux]
  | cons x xs ih =>
    simp only [chunkedAux, List.length_cons]
    by_cases h : size ≤ buf.length + 1
    · simp [h, ih]
    · simp [h, ih]

/-- Chunking splits the input without losing or reordering items. -/
theorem chunked_join {α : Type} (size : Nat) (l : List α) :
    (chunked size l).flatten = l := by
  simp [chunked, chunkedAux_join]

theorem liveBatchRows_fst (f : Json → Except String (String × String × Rec))
    (l : List Json) :
    (liveBatchRows f l).1 =
      l.filterMap (fun it =>
        match f it with
        | Except.ok r => some r
        | Except.error _ => none) := by
  induction l with
  | nil => simp [liveBatchRows]
  | cons item rest ih =>
    cases h : f item with
    | ok r => simp [liveBatchRows, h, List.filterMap_cons, ih]
    | error e => simp [liveBatchRows, h, List.filterMap_cons, ih]

theorem liveBatchRows_snd (f : Json → Except String (String × String × Rec))
    (l : List Json) :
    (liveBatchRows f l).2 = l.countP (fun it => !exOk (f it)) := by
  induction l with
  | nil => simp [liveBatchRows]
  | cons item rest ih =>
    cases h : f item with
    | ok r => simp [liveBatchRows, h, List.countP_cons, ih, exOk]
    | error e => simp [liveBatchRows, h, List.countP_cons, ih, exOk]

theorem liveOps_append (m : String → List Int)
    (f : Json → Except String (String × String × Rec)) (l1 l2 : List Json) :
    liveOps m f (l1 ++ l2) = liveOps m f l1 ++ liveOps m f l2 := by
  simp [liveOps, List.filterMap_append]

/-- The per-chunk upserts of a live batch are exactly the batch's slice of
the whole run's upsert sequence. -/
theorem liveChunkOps_eq (m : String → List Int)
    (f : Json → Except String (String × String × Rec)) (batch : List Json) :
    (liveBatchRows f batch).1.map (fun r => (r.1, (m r.2.1, r.2.2))) =
      liveOps m f batch := by
  rw [liveBatchRows_fst, List.map_filterMap]
  unfold liveOps
  congr 1
  funext it
  cases f it <;> rfl

/-- What a live migration run does, as a function of the whole input: one
upsert sequence applied to the store, `ok` counting its length, `skipped`
counting the items the per-item handler rejected. -/
theorem migrateLiveCore_eq (m : String → List Int)
    (f : Json → Except String (String × String × Rec))
    (init : LiveRun) (data : List Json) :
    migrateLiveCore m f init data =
      ⟨applyUpserts init.store (liveOps m f data),
        init.okCount + (liveOps m f data).length,
        init.skipped + data.countP (fun it => !exOk (f it))⟩ := by
  have main : ∀ (cs : List (List Json)) (acc : LiveRun),
      cs.foldl
        (fun acc batch =>
          let rows := liveBatchRows f batch
          let ops := rows.1.map (fun r => (r.1, (m r.2.1, r.2.2)))
          LiveRun.mk (applyUpserts acc.store ops) (acc.okCount + rows.1.length)
            (acc.skipped + rows.2))
        acc =
      ⟨applyUpserts acc.store (liveOps m f cs.flatten),
        acc.okCount + (liveOps m f cs.flatten).length,
        acc.skipped + cs.flatten.countP (fun it => !exOk (f it))⟩ := by
    intro cs
    induction cs with
    | nil => intro acc; simp [liveOps, applyUpserts]
    | cons c cs ih =>
      intro acc
      have hlen : (liveBatchRows f c).1.length = (liveOps m f c).length := by
        rw [← liveChunkOps_eq m f c, List.length_map]
      have hskip := liveBatchRows_snd f c
      rw [List.foldl_cons, ih]
      simp only [List.flatten_cons, liveOps_append, applyUpserts_append,
        List.countP_append, List.length_append, liveChunkOps_eq, LiveRun.mk.injEq]
      refine ⟨trivial, ?_, ?_⟩
      · omega
      · omega
  have h := main (chunked 128 data) init
  rw [chunked_join] at h
  exact h

/-- The id and metadata a pending item contributes when it already carries
a truthy `review_id` (the deterministic case of `migrate_pending`). -/
def pendingPure : Json → Option (String × Rec)
  | Json.obj fields =>
    match lookAssoc fields "review_id" with
    | some v =>
      if truthy v then some (pyStr v, coerce_metadata (Json.obj fields)) else none
    | none => none
  | _ => none

/-- On a batch whose items all carry a truthy `review_id`, the pending
per-item loop consumes no fresh ids, skips nothing, and produces exactly
the deterministic rows. -/
theorem pendingBatchRows_pure (ctr : Nat) (l : List Json)
    (hp : ∀ it ∈ l, (pendingPure it).isSome) :
    pendingBatchRows ctr l = (l.filterMap pendingPure, 0, ctr) := by
  induction l generalizing ctr with
  | nil => simp [pendingBatchRows]
  | cons item rest ih =>
    have h1 : (pendingPure item).isSome := hp item (List.mem_cons_self _ _)
    have hrest : ∀ it ∈ rest, (pendingPure it).isSome :=
      fun it hit => hp it (List.mem_cons.mpr (Or.inr hit))
    cases item with
    | obj fields =>
      cases hv : lookAssoc fields "review_id" with
      | none => simp [pendingPure, hv] at h1
      | some v =>
        by_cases ht : truthy v
        · simp [pendingBatchRows, pendingItemId, hv, ht, List.filterMap_cons,
            pendingPure, ih ctr hrest]
        · simp [pendingPure, hv, ht] at h1
    | null => simp [pendingPure] at h1
    | bool b => simp [pendingPure] at h1
    | num n => simp [pendingPure] at h1
    | str s => simp [pendingPure] at h1
    | arr xs => simp [pendingPure] at h1

/-- On input whose items all carry a truthy `review_id`, a pending
migration run is one deterministic upsert sequence: the counter does not
move, nothing is skipped. -/
theorem migrate_pending_eq (init : PendingRun) (data : List Json)
    (hp : ∀ it ∈ data, (pendingPure it).isSome) :
    migrate_pending init data =
      ⟨applyUpserts init.store (data.filterMap pendingPure),
        init.okCount + (data.filterMap pendingPure).length,
        init.skipped, init.ctr⟩ := by
  have main : ∀ (cs : List (List Json)),
      (∀ it ∈ cs.flatten, (pendingPure it).isSome) → ∀ (acc : PendingRun),
      cs.foldl
        (fun acc batch =>
          let rows := pendingBatchRows acc.ctr batch
          PendingRun.mk (applyUpserts acc.store rows.1) (acc.okCount + rows.1.length)
            (acc.skipped + rows.2.1) rows.2.2)
        acc =
      ⟨applyUpserts acc.store (cs.flatten.filterMap pendingPure),
        acc.okCount + (cs.flatten.filterMap pendingPure).length,
        acc.skipped, acc.ctr⟩ := by
    intro cs
    induction cs with
    | nil => intro _ acc; simp [applyUpserts]
    | cons c cs ih =>
      intro hcs acc
      have hc : ∀ it ∈ c, (pendingPure it).isSome := fun it hit =>
        hcs it (by rw [List.flatten_cons]; exact List.mem_append.mpr (Or.inl hit))
      have hcs' : ∀ it ∈ cs.flatten, (pendingPure it).isSome := fun it hit =>
        hcs it (by rw [List.flatten_cons]; exact List.mem_append.mpr (Or.inr hit))
      rw [List.foldl_cons]
      simp only [pendingBatchRows_pure acc.ctr c hc]
      rw [ih hcs']
      simp only [List.flatten_cons, List.filterMap_append, applyUpserts_append,
        List.length_append, PendingRun.mk.injEq]
      refine ⟨trivial, by omega, by omega, trivial⟩
  have h := main (chunked 128 data) (by rw [chunked_join]; exact hp) init
  rw [chunked_join] at h
  exact h

theorem length_insertLE {α : Type} (key : α → Int) (x : α) (l : List α) :
    (insertLE key x l).length = l.length + 1 := by
  induction l with
  | nil => simp [insertLE]
  | cons y ys ih =>
    by_cases h : key y < key x
    · simp [insertLE, h, ih]
    · simp [insertLE, h]

theorem length_sortLE {α : Type} (key : α → Int) (l : List α) :
    (sortLE key l).length = l.length := by
  induction l with
  | nil => rfl
  | cons x xs ih => simp [sortLE, length_insertLE, ih]

/-- The semantic path returns `min n (size of the live collection)`
records. -/
theorem semanticQuery_count (m : String → List Int) (live : LiveStore) (q : String)
    (n : Nat) :
    ((semanticQuery m live q n).metadatas.headD []).length = min n live.length := by
  simp [semanticQuery, List.length_take, length_sortLE]

/-- The value the semantic fallback of `search_errors_db` returns: the
ranked result, or `none` when it carries no ids. -/
def semanticPath (m : String → List Int) (live : LiveStore) (q : String) (n : Nat) :
    Option QueryResult :=
  let results := semanticQuery m live q n
  match results.qids with
  | some (ids0 :: _) => if ids0.isEmpty then none else some results
  | _ => none

theorem search_eq_direct (m : String → List Int) (live : LiveStore) (query : String)
    (n : Nat) (key : String) (pr : VLive)
    (h1 : firstNumRun (pyStrip query) = some key)
    (h2 : lookAssoc live key = some pr) :
    search_errors_db m live query n = some ⟨none, [[pr.2]], [[0]]⟩ := by
  simp [search_errors_db, h1, h2]

theorem search_eq_semanticPath_of_no_key (m : String → List Int) (live : LiveStore)
    (query : String) (n : Nat) (h : firstNumRun (pyStrip query) = none) :
    search_errors_db m live query n = semanticPath m live query n := by
  simp [search_errors_db, h, semanticPath]

theorem search_eq_semanticPath_of_miss (m : String → List Int) (live : LiveStore)
    (query : String) (n : Nat) (key : String)
    (h1 : firstNumRun (pyStrip query) = some key)
    (h2 : lookAssoc live key = none) :
    search_errors_db m live query n = semanticPath m live query n := by
  simp [search_errors_db, h1, h2, semanticPath]

theorem semanticPath_eq (m : String → List Int) (live : LiveStore) (q : String)
    (n : Nat) :
    semanticPath m live q n =
      if ((sortLE (fun e => sqDist (m q) e.2.1) live).take n).isEmpty
      then none else some (semanticQuery m live q n) := by
  cases ht : (sortLE (fun e => sqDist (m q) e.2.1) live).take n with
  | nil => simp [semanticPath, semanticQuery, ht, keysAssoc]
  | cons a l => simp [semanticPath, semanticQuery, ht, keysAssoc]

theorem take_sortLE_isEmpty_iff (m : String → List Int) (live : LiveStore) (q : String)
    (n : Nat) :
    ((sortLE (fun e => sqDist (m q) e.2.1) live).take n).isEmpty = true ↔
      min n live.length = 0 := by
  have hlen : ((sortLE (fun e => sqDist (m q) e.2.1) live).take n).length =
      min n live.length := by
    simp [List.length_take, length_sortLE]
  rw [List.isEmpty_iff, ← List.length_eq_zero, hlen]

theorem semanticPath_count (m : String → List Int) (live : LiveStore) (q : String)
    (n : Nat) :
    resultCount (semanticPath m live q n) = min n live.length := by
  rw [semanticPath_eq]
  by_cases h : ((sortLE (fun e => sqDist (m q) e.2.1) live).take n).isEmpty
  · rw [if_pos h]
    have := (take_sortLE_isEmpty_iff m live q n).mp h
    simp [resultCount, this]
  · rw [if_neg h]
    exact semanticQuery_count m live q n

theorem semanticPath_none_iff (m : String → List Int) (live : LiveStore) (q : String)
    (n : Nat) :
    semanticPath m live q n = none ↔ min n live.length = 0 := by
  rw [semanticPath_eq]
  by_cases h : ((sortLE (fun e => sqDist (m q) e.2.1) live).take n).isEmpty
  · simp [h, (take_sortLE_isEmpty_iff m live q n).mp h]
  · simp only [if_neg h]
    constructor
    · intro hc; cases hc
    · intro hc
      exact absurd ((take_sortLE_isEmpty_iff m live q n).mpr hc) h

/-- C2: `search_errors_db` scans the stripped query for maximal digit runs
of length ≥ 3 and takes the first as a candidate key; an exact hit on the
live collection returns that single record with distance 0 and consults
neither the embedding model nor the ranking; only when no candidate
exists, or the exact lookup misses, does it run the semantic
nearest-neighbor query. -/
theorem c2_search_exact_short_circuit (m : String → List Int) (live : LiveStore)
    (query : String) (n : Nat) :
    (∀ key pr, firstNumRun (pyStrip query) = some key → lookAssoc live key = some pr →
      search_errors_db m live query n = some ⟨none, [[pr.2]], [[0]]⟩) ∧
    (firstNumRun (pyStrip query) = none →
      search_errors_db m live query n = semanticPath m live query n) ∧
    (∀ key, firstNumRun (pyStrip query) = some key → lookAssoc live key = none →
      search_errors_db m live query n = semanticPath m live query n) := by
  refine ⟨?_, ?_, ?_⟩
  · intro key pr h1 h2
    exact search_eq_direct m live query n key pr h1 h2
  · intro h
    exact search_eq_semanticPath_of_no_key m live query n h
  · intro key h1 h2
    exact search_eq_semanticPath_of_miss m live query n key h1 h2

/-- Witness for C2: `search("error 4521 happened")` against a live store
holding key `"4521"` returns that record alone with distance 0. -/
theorem c2_witness :
    search_errors_db (fun _ => [0])
        [("4521", ([5], [("message_number", Json.str "4521")]))]
        "error 4521 happened" 3 =
      some ⟨none, [[[("message_number", Json.str "4521")]]], [[0]]⟩ :=
  (c2_search_exact_short_circuit (fun _ => [0])
      [("4521", ([5], [("message_number", Json.str "4521")]))]
      "error 4521 happened" 3).1 "4521" _ rfl rfl

/-- C8: with no candidate key in the query, `search_errors_db` is total on
the semantic path: it returns `min top_k (live size)` records — all
available ones when fewer than `top_k` exist — and yields the empty result
`none` exactly when the index is empty or `top_k` is 0, never an error. -/
theorem c8_semantic_empty_and_count (m : String → List Int) (live : LiveStore)
    (q : String) (n : Nat) (h : firstNumRun (pyStrip q) = none) :
    resultCount (search_errors_db m live q n) = min n live.length ∧
    (search_errors_db m live q n = none ↔ min n live.length = 0) := by
  rw [search_eq_semanticPath_of_no_key m live q n h]
  exact ⟨semanticPath_count m live q n, semanticPath_none_iff m live q n⟩

/-- Witness for C8: a digit-free query over a 2-record live store with
`top_k = 5` returns both records; over an empty store it returns `none`. -/
theorem c8_witness :
    resultCount (search_errors_db (fun s => [Int.ofNat s.length])
        [("a", ([1], [("k", Json.num 1)])), ("b", ([9], [("k", Json.num 2)]))]
        "unrelated free text" 5) = 2 ∧
    search_errors_db (fun s => [Int.ofNat s.length]) [] "unrelated free text" 5 = none := by
  constructor
  · exact (c8_semantic_empty_and_count (fun s => [Int.ofNat s.length])
      [("a", ([1], [("k", Json.num 1)])), ("b", ([9], [("k", Json.num 2)]))]
      "unrelated free text" 5 rfl).1
  · exact (c8_semantic_empty_and_count (fun s => [Int.ofNat s.length])
      [] "unrelated free text" 5 rfl).2.mpr rfl

theorem eraseAssoc_cons {V : Type} (a : String) (b : V) (s : List (String × V))
    (k : String) :
    eraseAssoc ((a, b) :: s) k =
      if a = k then eraseAssoc s k else (a, b) :: eraseAssoc s k := by
  simp only [eraseAssoc, List.filter_cons]
  by_cases h : a = k
  · simp [h]
  · simp [h]

theorem lookAssoc_erase_self {V : Type} (s : List (String × V)) (k : String) :
    lookAssoc (eraseAssoc s k) k = none := by
  induction s with
  | nil => rfl
  | cons p s ih =>
    obtain ⟨a, b⟩ := p
    rw [eraseAssoc_cons]
    by_cases h : a = k
    · rw [if_pos h]
      exact ih
    · rw [if_neg h]
      simp only [lookAssoc, if_neg h]
      exact ih

theorem lookAssoc_erase_ne {V : Type} (s : List (String × V)) (k k' : String)
    (h : k ≠ k') : lookAssoc (eraseAssoc s k) k' = lookAssoc s k' := by
  induction s with
  | nil => rfl
  | cons p s ih =>
    obtain ⟨a, b⟩ := p
    rw [eraseAssoc_cons]
    by_cases ha : a = k
    · subst ha
      rw [if_pos rfl]
      simp only [lookAssoc]
      rw [if_neg h, ih]
    · rw [if_neg ha]
      simp only [lookAssoc]
      by_cases ha' : a = k'
      · rw [if_pos ha', if_pos ha']
      · rw [if_neg ha', if_neg ha', ih]

/-- C9: `approve_solution_db` mutates the caller's dictionary in place:
after the call the record the caller passed in is exactly that record with
the `review_id` entry popped, so the caller no longer sees a `review_id`
key on it — whether or not the call raised. -/
theorem c9_approve_mutates_caller_record (m : String → List Int) (live : LiveStore)
    (pending : PendStore) (solution : Rec) :
    (approve_solution_db m live pending solution).callerRec =
      eraseAssoc solution "review_id" ∧
    lookAssoc (approve_solution_db m live pending solution).callerRec "review_id" =
      none := by
  have hcall : (approve_solution_db m live pending solution).callerRec =
      eraseAssoc solution "review_id" := by
    cases hl : lookAssoc (eraseAssoc solution "review_id") "message_number" with
    | none => simp [approve_solution_db, hl]
    | some mn => simp [approve_solution_db, hl]
  exact ⟨hcall, by rw [hcall]; exact lookAssoc_erase_self solution "review_id"⟩

/-- Witness for C9: a caller's record that carried `review_id`
`"review_9"` comes back without that key. -/
theorem c9_witness :
    (approve_solution_db (fun _ => [1]) [] []
        [("review_id", Json.str "review_9"), ("message_number", Json.str "123")]).callerRec =
      [("message_number", Json.str "123")] ∧
    lookAssoc (approve_solution_db (fun _ => [1]) [] []
        [("review_id", Json.str "review_9"),
          ("message_number", Json.str "123")]).callerRec "review_id" = none :=
  ⟨(c9_approve_mutates_caller_record (fun _ => [1]) [] []
      [("review_id", Json.str "review_9"), ("message_number", Json.str "123")]).1,
    (c9_approve_mutates_caller_record (fun _ => [1]) [] []
      [("review_id", Json.str "review_9"), ("message_number", Json.str "123")]).2⟩

/-- Counterexample to C1: a record with `message_number` but with NO
`review_id` is approved without any error — the claimed ValidationError on
a missing `review_id` does not exist in the code (`pop` defaults to
`None`). -/
theorem c1_counterexample :
    (approve_solution_db (fun _ => [0]) [] []
        [("message_number", Json.str "123")]).outcome =
      Except.ok ([("123", ([0], [("message_number", Json.str "123")]))], []) := rfl

/-- C1 (amended): `approve_solution_db` fails exactly when
`message_number` is absent, and the failure is a plain `KeyError` raised
before the live write, not a ValidationError; a missing `review_id` is
tolerated silently — the call succeeds and merely skips the pending
delete; when `message_number` is present no error of any kind is raised. -/
theorem c1_approve_error_iff_missing_message_number (m : String → List Int)
    (live : LiveStore) (pending : PendStore) (solution : Rec) :
    (exOk (approve_solution_db m live pending solution).outcome = false ↔
      lookAssoc solution "message_number" = none) ∧
    (lookAssoc solution "message_number" = none →
      (approve_solution_db m live pending solution).outcome =
        Except.error "KeyError: message_number") ∧
    (lookAssoc solution "review_id" = none →
      ∀ st, (approve_solution_db m live pending solution).outcome = Except.ok st →
        st.2 = pending) := by
  have hmn : lookAssoc (eraseAssoc solution "review_id") "message_number" =
      lookAssoc solution "message_number" :=
    lookAssoc_erase_ne solution "review_id" "message_number" (by decide)
  refine ⟨?_, ?_, ?_⟩
  · rw [← hmn]
    cases hl : lookAssoc (eraseAssoc solution "review_id") "message_number" with
    | none => simp [approve_solution_db, hl, exOk]
    | some mn => simp [approve_solution_db, hl, exOk]
  · intro h
    rw [← hmn] at h
    simp [approve_solution_db, h]
  · intro hrid st hok
    obtain ⟨l1, p1⟩ := st
    cases hl : lookAssoc (eraseAssoc solution "review_id") "message_number" with
    | none =>
      simp [approve_solution_db, hl] at hok
    | some mn =>
      simp only [approve_solution_db, hl, hrid, Except.ok.injEq, Prod.mk.injEq] at hok
      exact hok.2.symm

/-- Witness for C1 (amended): a record missing `message_number` raises the
`KeyError`; one missing only `review_id` succeeds with the pending store
untouched. -/
theorem c1_witness :
    (approve_solution_db (fun _ => [0]) [] [("review_x", ([], "d"))]
        [("message_text", Json.str "t")]).outcome =
      Except.error "KeyError: message_number" ∧
    (([("9", ([0], [("message_number", Json.str "9")]))],
        [("review_x", ([], "d"))]) : LiveStore × PendStore).2 =
      [("review_x", ([], "d"))] :=
  ⟨(c1_approve_error_iff_missing_message_number (fun _ => [0]) [] [("review_x", ([], "d"))]
      [("message_text", Json.str "t")]).2.1 rfl,
    (c1_approve_error_iff_missing_message_number (fun _ => [0]) [] [("review_x", ([], "d"))]
      [("message_number", Json.str "9")]).2.2 rfl
      ([("9", ([0], [("message_number", Json.str "9")]))], [("review_x", ([], "d"))]) rfl⟩

/-- Counterexample to C4: approving a record whose `review_id` is
`"review_ab"` writes a live record whose metadata contains NO `review_id`
key at all — the claimed tagging for reconciliation does not happen. -/
theorem c4_counterexample :
    (approve_solution_db (fun _ => [0]) [] [("review_ab", ([], "d"))]
        [("review_id", Json.str "review_ab"), ("message_number", Json.str "500")]).outcome =
      Except.ok ([("500", ([0], [("message_number", Json.str "500")]))], []) ∧
    lookAssoc [("message_number", Json.str "500")] "review_id" = none :=
  ⟨rfl, rfl⟩

/-- The metadata `approve_solution_db` writes into the live collection is
the caller's record with `review_id` popped, so it carries no
`review_id`. -/
theorem approve_live_write_strips_review_id (m : String → List Int) (live : LiveStore)
    (pending : PendStore) (solution : Rec) (mn : Json) (st : LiveStore × PendStore)
    (hmn : lookAssoc solution "message_number" = some mn)
    (hok : (approve_solution_db m live pending solution).outcome = Except.ok st) :
    ∀ v, lookAssoc st.1 (pyStr mn) = some v →
      lookAssoc v.2 "review_id" = none := by
  intro v hv
  obtain ⟨l1, p1⟩ := st
  have hmn' : lookAssoc (eraseAssoc solution "review_id") "message_number" = some mn := by
    rw [lookAssoc_erase_ne solution "review_id" "message_number" (by decide)]
    exact hmn
  simp only [approve_solution_db, hmn', Except.ok.injEq, Prod.mk.injEq] at hok
  simp only at hv
  rw [← hok.1] at hv
  rw [lookAssoc_upsert_self] at hv
  cases hv
  exact lookAssoc_erase_self solution "review_id"

/-- C4 (amended): every live record written by `approve_solution_db`
carries NO `review_id` — the id is popped from the record before the live
write, so no tag linking a live record to its originating pending entry
exists, and tag-based reconciliation of orphaned pending entries is
impossible. -/
theorem c4_live_record_not_tagged (m : String → List Int) (live : LiveStore)
    (pending : PendStore) (solution : Rec) (mn : Json) (st : LiveStore × PendStore)
    (hmn : lookAssoc solution "message_number" = some mn)
    (hok : (approve_solution_db m live pending solution).outcome = Except.ok st) :
    ∀ v, lookAssoc st.1 (pyStr mn) = some v →
      lookAssoc v.2 "review_id" = none :=
  approve_live_write_strips_review_id m live pending solution mn st hmn hok

/-- Witness for C4 (amended): concrete approval whose written live record
has no `review_id`. -/
theorem c4_witness :
    lookAssoc ([("message_number", Json.str "500")] : Rec) "review_id" = none :=
  c4_live_record_not_tagged (fun _ => [0]) [] [("review_ab", ([], "d"))]
    [("review_id", Json.str "review_ab"), ("message_number", Json.str "500")]
    (Json.str "500") ([("500", ([0], [("message_number", Json.str "500")]))], []) rfl rfl
    ([0], [("message_number", Json.str "500")]) rfl

theorem coerceMeta_cons (a : String) (b : Json) (r : Rec) :
    coerceMeta ((a, b) :: r) =
      match coerceVal b with
      | none => coerceMeta r
      | some w => (a, w) :: coerceMeta r := by
  cases hc : coerceVal b <;> simp [coerceMeta, List.filterMap_cons, hc]

theorem coerceMeta_look_some (r : Rec) (k : String) (v w : Json)
    (h1 : lookAssoc r k = some v) (h2 : coerceVal v = some w) :
    lookAssoc (coerceMeta r) k = some w := by
  induction r with
  | nil => cases h1
  | cons p r ih =>
    obtain ⟨a, b⟩ := p
    simp only [lookAssoc] at h1
    rw [coerceMeta_cons]
    by_cases ha : a = k
    · rw [if_pos ha] at h1
      cases h1
      rw [h2]
      simp [lookAssoc, ha]
    · rw [if_neg ha] at h1
      cases hc : coerceVal b with
      | none => exact ih h1
      | some w' =>
        simp only [lookAssoc, if_neg ha]
        exact ih h1

theorem coerceMeta_look_none (r : Rec) (k : String)
    (h : lookAssoc r k = none) :
    lookAssoc (coerceMeta r) k = none := by
  induction r with
  | nil => rfl
  | cons p r ih =>
    obtain ⟨a, b⟩ := p
    simp only [lookAssoc] at h
    rw [coerceMeta_cons]
    by_cases ha : a = k
    · rw [if_pos ha] at h
      cases h
    · rw [if_neg ha] at h
      cases hc : coerceVal b with
      | none => exact ih h
      | some w' =>
        simp only [lookAssoc, if_neg ha]
        exact ih h

/-- Counterexample to C5: the surviving (second) revision of
`migrate_live` upserts a live record whose metadata still contains the
source item's `review_id` — it pops only `embedding`, not `review_id`. -/
theorem c5_counterexample :
    (migrate_live_v2 (fun _ => [0]) ⟨[], 0, 0⟩
        [Json.obj [("message_number", Json.str "123"),
          ("review_id", Json.str "review_x")]]).store =
      [("123", ([0], [("message_number", Json.str "123"),
        ("review_id", Json.str "review_x")]))] ∧
    lookAssoc [("message_number", Json.str "123"), ("review_id", Json.str "review_x")]
        "review_id" = some (Json.str "review_x") :=
  ⟨rfl, rfl⟩

/-- C5 (amended): `approve_solution_db` and the first revision of
`migrate_live` write live metadata with `review_id` removed, but the
second revision of `migrate_live` — the one in force at runtime — keeps
any `review_id` present in the source item, so live records written by
that path can carry a `review_id`. -/
theorem c5_review_id_stripping_amended (m : String → List Int) :
    (∀ (live : LiveStore) (pending : PendStore) (solution : Rec) (mn : Json)
        (st : LiveStore × PendStore),
      lookAssoc solution "message_number" = some mn →
      (approve_solution_db m live pending solution).outcome = Except.ok st →
      ∀ v, lookAssoc st.1 (pyStr mn) = some v →
        lookAssoc v.2 "review_id" = none) ∧
    (∀ item r, processLiveItemV1 item = Except.ok r →
      lookAssoc r.2.2 "review_id" = none) ∧
    (∀ (fields : Rec) (rv : String) r,
      lookAssoc fields "review_id" = some (Json.str rv) →
      processLiveItemV2 (Json.obj fields) = Except.ok r →
      lookAssoc r.2.2 "review_id" = some (Json.str rv)) := by
  refine ⟨?_, ?_, ?_⟩
  · intro live pending solution mn st hmn hok
    exact approve_live_write_strips_review_id m live pending solution mn st hmn hok
  · intro item r h
    cases hd : pyDict item with
    | error e => simp [processLiveItemV1, hd] at h
    | ok d0 =>
      simp only [processLiveItemV1, hd] at h
      cases hl : lookAssoc (eraseAssoc (eraseAssoc d0 "embedding") "review_id")
          "message_number" with
      | none =>
        simp only [hl] at h
        exact Except.noConfusion h
      | some v =>
        simp only [hl] at h
        by_cases hnull : isNull v = true
        · rw [if_pos hnull] at h
          exact Except.noConfusion h
        · rw [if_neg hnull] at h
          simp only [Except.ok.injEq] at h
          rw [← h]
          exact coerceMeta_look_none _ _ (lookAssoc_erase_self _ _)
  · intro fields rv r hrid h
    have hrid2 : lookAssoc (eraseAssoc fields "embedding") "review_id" =
        some (Json.str rv) := by
      rw [lookAssoc_erase_ne fields "embedding" "review_id" (by decide)]
      exact hrid
    simp only [processLiveItemV2, pyDict] at h
    cases hl : lookAssoc (eraseAssoc fields "embedding") "message_number" with
    | none =>
      simp only [hl] at h
      exact Except.noConfusion h
    | some v =>
      simp only [hl] at h
      by_cases ht : truthy v = true
      · rw [if_pos ht] at h
        simp only [Except.ok.injEq] at h
        rw [← h]
        exact coerceMeta_look_some _ _ _ _ hrid2 rfl
      · rw [if_neg ht] at h
        exact Except.noConfusion h

/-- Witness for C5 (amended): the v1 per-item handler strips a present
`review_id`; the v2 handler preserves it. -/
theorem c5_witness :
    lookAssoc ([("message_number", Json.str "123")] : Rec) "review_id" = none ∧
    lookAssoc ([("message_number", Json.str "123"),
        ("review_id", Json.str "review_x")] : Rec) "review_id" =
      some (Json.str "review_x") :=
  ⟨(c5_review_id_stripping_amended (fun _ => [0])).2.1
      (Json.obj [("message_number", Json.str "123"),
        ("review_id", Json.str "review_x")])
      ("123", "Message #123", [("message_number", Json.str "123")]) rfl,
    (c5_review_id_stripping_amended (fun _ => [0])).2.2
      [("message_number", Json.str "123"), ("review_id", Json.str "review_x")]
      "review_x"
      ("123", "Message #123",
        [("message_number", Json.str "123"), ("review_id", Json.str "review_x")])
      rfl rfl⟩

theorem countKey_eq_zero_of_not_mem {V : Type} (s : List (String × V)) (k : String)
    (h : k ∉ keysAssoc s) : countKey s k = 0 := by
  induction s with
  | nil => rfl
  | cons p s ih =>
    obtain ⟨a, b⟩ := p
    rw [keysAssoc_cons] at h
    have ha : ¬ a = k := fun hk => h (List.mem_cons.mpr (Or.inl hk.symm))
    have hs : k ∉ keysAssoc s := fun hk => h (List.mem_cons.mpr (Or.inr hk))
    simp only [countKey, List.filter_cons] at ih ⊢
    simp [ha, ih hs]

theorem countKey_upsert_not_mem {V : Type} (s : List (String × V)) (k : String) (v : V)
    (h : k ∉ keysAssoc s) : countKey (upsertAssoc s k v) k = countKey s k + 1 := by
  induction s with
  | nil => simp [upsertAssoc, countKey]
  | cons p s ih =>
    obtain ⟨a, b⟩ := p
    rw [keysAssoc_cons] at h
    have ha : ¬ a = k := fun hk => h (List.mem_cons.mpr (Or.inl hk.symm))
    have hs : k ∉ keysAssoc s := fun hk => h (List.mem_cons.mpr (Or.inr hk))
    simp only [upsertAssoc, if_neg ha, countKey, List.filter_cons] at ih ⊢
    simp [ha, ih hs]

theorem countKey_upsert_mem {V : Type} (s : List (String × V)) (k : String) (v : V)
    (h : k ∈ keysAssoc s) : countKey (upsertAssoc s k v) k = countKey s k := by
  induction s with
  | nil => cases h
  | cons p s ih =>
    obtain ⟨a, b⟩ := p
    by_cases ha : a = k
    · simp only [upsertAssoc, if_pos ha, countKey, List.filter_cons]
      simp [ha]
    · rw [keysAssoc_cons] at h
      rcases List.mem_cons.mp h with h1 | h2
      · exact absurd h1.symm ha
      · simp only [upsertAssoc, if_neg ha, countKey, List.filter_cons] at ih ⊢
        simp [ha, ih h2]

theorem freshId_ne_empty (ctr : Nat) : freshId ctr ≠ "" := by
  intro h
  have hlen : (freshId ctr).length = 0 := by rw [h]; rfl
  rw [freshId, String.length_append] at hlen
  have h7 : ("review_" : String).length = 7 := rfl
  omega

/-- C6: submitting a record without a `review_id` draws a fresh id and
creates exactly one pending record under it; submitting again with that id
and changed fields replaces the stored metadata in place — still exactly
one record under the id, the store size unchanged, and the stored value
holding the latest fields (with `review_id` forced in) and the rebuilt
document text. Freshness of the drawn id is the hypothesis `hfresh`,
which is what `uuid4` provides. -/
theorem c6_submit_edit_idempotent (pending : PendStore) (ctr : Nat) (e1 e2 : Rec)
    (h1 : lookAssoc e1 "review_id" = none)
    (hfresh : freshId ctr ∉ keysAssoc pending)
    (h2 : lookAssoc e2 "review_id" = some (Json.str (freshId ctr))) :
    (submit_solution_for_review_db pending ctr e1).2.2 = freshId ctr ∧
    countKey (submit_solution_for_review_db pending ctr e1).1 (freshId ctr) = 1 ∧
    (submit_solution_for_review_db
        (submit_solution_for_review_db pending ctr e1).1
        (submit_solution_for_review_db pending ctr e1).2.1 e2).2.2 = freshId ctr ∧
    countKey (submit_solution_for_review_db
        (submit_solution_for_review_db pending ctr e1).1
        (submit_solution_for_review_db pending ctr e1).2.1 e2).1 (freshId ctr) = 1 ∧
    (submit_solution_for_review_db
        (submit_solution_for_review_db pending ctr e1).1
        (submit_solution_for_review_db pending ctr e1).2.1 e2).1.length =
      (submit_solution_for_review_db pending ctr e1).1.length ∧
    lookAssoc (submit_solution_for_review_db
        (submit_solution_for_review_db pending ctr e1).1
        (submit_solution_for_review_db pending ctr e1).2.1 e2).1 (freshId ctr) =
      some (upsertAssoc (e2.filter (fun p => !isNull p.2)) "review_id"
          (Json.str (freshId ctr)),
        "Error " ++ getS e2 "message_number" ++ ": " ++ getS e2 "message_text") := by
  have htr : truthy (Json.str (freshId ctr)) = true := by
    simp only [truthy, decide_eq_true_eq]
    exact freshId_ne_empty ctr
  have hs1 : submit_solution_for_review_db pending ctr e1 =
      (upsertAssoc pending (freshId ctr)
        (upsertAssoc (e1.filter (fun p => !isNull p.2)) "review_id"
          (Json.str (freshId ctr)),
          "Error " ++ getS e1 "message_number" ++ ": " ++ getS e1 "message_text"),
        ctr + 1, freshId ctr) := by
    simp [submit_solution_for_review_db, h1]
  have hcnt1 : countKey (submit_solution_for_review_db pending ctr e1).1
      (freshId ctr) = 1 := by
    rw [hs1]
    rw [countKey_upsert_not_mem pending (freshId ctr) _ hfresh,
      countKey_eq_zero_of_not_mem pending (freshId ctr) hfresh]
  have hmem : freshId ctr ∈ keysAssoc (submit_solution_for_review_db pending ctr e1).1 := by
    rw [hs1]
    exact mem_keysAssoc_upsert_self pending (freshId ctr) _
  have hs2 : submit_solution_for_review_db
      (submit_solution_for_review_db pending ctr e1).1
      (submit_solution_for_review_db pending ctr e1).2.1 e2 =
      (upsertAssoc (submit_solution_for_review_db pending ctr e1).1 (freshId ctr)
        (upsertAssoc (e2.filter (fun p => !isNull p.2)) "review_id"
          (Json.str (freshId ctr)),
          "Error " ++ getS e2 "message_number" ++ ": " ++ getS e2 "message_text"),
        (submit_solution_for_review_db pending ctr e1).2.1, freshId ctr) := by
    simp [submit_solution_for_review_db, h2, htr, pyStr]
  refine ⟨by rw [hs1], hcnt1, by rw [hs2], ?_, ?_, ?_⟩
  · rw [hs2]
    simp only
    rw [countKey_upsert_mem _ _ _ hmem]
    exact hcnt1
  · rw [hs2]
    simp only
    exact length_upsert_of_mem _ _ _ hmem
  · rw [hs2]
    simp only
    exact lookAssoc_upsert_self _ _ _

/-- Witness for C6: submit without `review_id`, then resubmit with the
returned id `"review_0"` and a changed `solution`: one record, latest
values. -/
theorem c6_witness :
    countKey (submit_solution_for_review_db
        (submit_solution_for_review_db [] 0 [("solution", Json.str "a")]).1
        (submit_solution_for_review_db [] 0 [("solution", Json.str "a")]).2.1
        [("review_id", Json.str "review_0"), ("solution", Json.str "b")]).1
      "review_0" = 1 ∧
    lookAssoc (submit_solution_for_review_db
        (submit_solution_for_review_db [] 0 [("solution", Json.str "a")]).1
        (submit_solution_for_review_db [] 0 [("solution", Json.str "a")]).2.1
        [("review_id", Json.str "review_0"), ("solution", Json.str "b")]).1
      "review_0" =
      some ([("review_id", Json.str "review_0"), ("solution", Json.str "b")],
        "Error : ") :=
  ⟨(c6_submit_edit_idempotent [] 0 [("solution", Json.str "a")]
      [("review_id", Json.str "review_0"), ("solution", Json.str "b")]
      rfl (by simp [keysAssoc]) rfl).2.2.2.1,
    (c6_submit_edit_idempotent [] 0 [("solution", Json.str "a")]
      [("review_id", Json.str "review_0"), ("solution", Json.str "b")]
      rfl (by simp [keysAssoc]) rfl).2.2.2.2.2⟩

/-- C7: in a live-target migration batch, (a) any `embedding` field in the
source record is popped before the upsert (both revisions); (b) an item
with no `message_number` is rejected by the per-item handler, counted in
`skipped`, and does not prevent sibling items from being upserted; (c)
when `message_text` and `reason` are both empty or absent, the embedding
text falls back to `"Message #<id>"`. -/
theorem c7_live_migration_item_handling (m : String → List Int) :
    (∀ item r, processLiveItemV1 item = Except.ok r →
      lookAssoc r.2.2 "embedding" = none) ∧
    (∀ item r, processLiveItemV2 item = Except.ok r →
      lookAssoc r.2.2 "embedding" = none) ∧
    (∀ fields : Rec, lookAssoc fields "message_number" = none →
      processLiveItemV1 (Json.obj fields) = Except.error "missing message_number" ∧
      processLiveItemV2 (Json.obj fields) = Except.error "missing message_number") ∧
    (∀ (init : LiveRun) (data : List Json),
      (migrate_live_v1 m init data).skipped =
        init.skipped + data.countP (fun it => !exOk (processLiveItemV1 it))) ∧
    (∀ (init : LiveRun) (data : List Json) (item : Json) r,
      item ∈ data → processLiveItemV1 item = Except.ok r →
      r.1 ∈ keysAssoc (migrate_live_v1 m init data).store) ∧
    (∀ (fields : Rec) (v : Json),
      lookAssoc fields "message_number" = some v → isNull v = false →
      (lookAssoc fields "message_text" = none ∨
        lookAssoc fields "message_text" = some (Json.str "")) →
      (lookAssoc fields "reason" = none ∨
        lookAssoc fields "reason" = some (Json.str "")) →
      processLiveItemV1 (Json.obj fields) =
        Except.ok (pyStr v, "Message #" ++ pyStr v,
          coerceMeta (eraseAssoc (eraseAssoc fields "embedding") "review_id"))) := by
  refine ⟨?_, ?_, ?_, ?_, ?_, ?_⟩
  · intro item r h
    cases hd : pyDict item with
    | error e => simp [processLiveItemV1, hd] at h
    | ok d0 =>
      simp only [processLiveItemV1, hd] at h
      cases hl : lookAssoc (eraseAssoc (eraseAssoc d0 "embedding") "review_id")
          "message_number" with
      | none =>
        simp only [hl] at h
        exact Except.noConfusion h
      | some v =>
        simp only [hl] at h
        by_cases hnull : isNull v = true
        · rw [if_pos hnull] at h
          exact Except.noConfusion h
        · rw [if_neg hnull] at h
          simp only [Except.ok.injEq] at h
          rw [← h]
          refine coerceMeta_look_none _ _ ?_
          rw [lookAssoc_erase_ne _ "review_id" "embedding" (by decide)]
          exact lookAssoc_erase_self d0 "embedding"
  · intro item r h
    cases hd : pyDict item with
    | error e => simp [processLiveItemV2, hd] at h
    | ok d0 =>
      simp only [processLiveItemV2, hd] at h
      cases hl : lookAssoc (eraseAssoc d0 "embedding") "message_number" with
      | none =>
        simp only [hl] at h
        exact Except.noConfusion h
      | some v =>
        simp only [hl] at h
        by_cases ht : truthy v = true
        · rw [if_pos ht] at h
          simp only [Except.ok.injEq] at h
          rw [← h]
          exact coerceMeta_look_none _ _ (lookAssoc_erase_self d0 "embedding")
        · rw [if_neg ht] at h
          exact Except.noConfusion h
  · intro fields hmn
    constructor
    · have hl : lookAssoc (eraseAssoc (eraseAssoc fields "embedding") "review_id")
          "message_number" = none := by
        rw [lookAssoc_erase_ne _ "review_id" "message_number" (by decide),
          lookAssoc_erase_ne _ "embedding" "message_number" (by decide)]
        exact hmn
      simp [processLiveItemV1, pyDict, hl]
    · have hl : lookAssoc (eraseAssoc fields "embedding") "message_number" = none := by
        rw [lookAssoc_erase_ne _ "embedding" "message_number" (by decide)]
        exact hmn
      simp [processLiveItemV2, pyDict, hl]
  · intro init data
    rw [migrate_live_v1, migrateLiveCore_eq]
  · intro init data item r hmem hok
    rw [migrate_live_v1, migrateLiveCore_eq]
    refine mem_keysAssoc_applyUpserts _ init.store r.1 ?_
    have hop : (r.1, (m r.2.1, r.2.2)) ∈ liveOps m processLiveItemV1 data :=
      List.mem_filterMap.mpr ⟨item, hmem, by rw [hok]⟩
    exact List.mem_map.mpr ⟨(r.1, (m r.2.1, r.2.2)), hop, rfl⟩
  · intro fields v hmn hnull hmt hre
    have hl : lookAssoc (eraseAssoc (eraseAssoc fields "embedding") "review_id")
        "message_number" = some v := by
      rw [lookAssoc_erase_ne _ "review_id" "message_number" (by decide),
        lookAssoc_erase_ne _ "embedding" "message_number" (by decide)]
      exact hmn
    have hgmt : getS (eraseAssoc (eraseAssoc fields "embedding") "review_id")
        "message_text" = "" := by
      unfold getS
      rw [lookAssoc_erase_ne _ "review_id" "message_text" (by decide),
        lookAssoc_erase_ne _ "embedding" "message_text" (by decide)]
      rcases hmt with h | h <;> rw [h]
      rfl
    have hgre : getS (eraseAssoc (eraseAssoc fields "embedding") "review_id")
        "reason" = "" := by
      unfold getS
      rw [lookAssoc_erase_ne _ "review_id" "reason" (by decide),
        lookAssoc_erase_ne _ "embedding" "reason" (by decide)]
      rcases hre with h | h <;> rw [h]
      rfl
    simp only [processLiveItemV1, pyDict, hl]
    rw [if_neg (by simp [hnull])]
    rw [hgmt, hgre]
    have hps : pyStrip ("" ++ " " ++ "") = "" := rfl
    rw [hps, if_pos rfl]

/-- Witness for C7: the embedding field of a source item is gone from the
upserted metadata; an item without `message_number` is rejected; an item
with empty text embeds the placeholder. -/
theorem c7_witness :
    lookAssoc ([("message_number", Json.str "5")] : Rec) "embedding" = none ∧
    processLiveItemV1 (Json.obj [("note", Json.str "x")]) =
      Except.error "missing message_number" ∧
    processLiveItemV1 (Json.obj [("message_number", Json.str "77"),
        ("embedding", Json.arr [Json.num 1])]) =
      Except.ok ("77", "Message #77", [("message_number", Json.str "77")]) :=
  ⟨(c7_live_migration_item_handling (fun _ => [0])).1
      (Json.obj [("message_number", Json.str "5"),
        ("embedding", Json.arr [Json.num 1])])
      ("5", "Message #5", [("message_number", Json.str "5")]) rfl,
    ((c7_live_migration_item_handling (fun _ => [0])).2.2.1
      [("note", Json.str "x")] rfl).1,
    (c7_live_migration_item_handling (fun _ => [0])).2.2.2.2.2
      [("message_number", Json.str "77"), ("embedding", Json.arr [Json.num 1])]
      (Json.str "77") rfl rfl (Or.inl rfl) (Or.inl rfl)⟩

/-- `True` on flat scalar values (string/number/boolean). -/
def isScalar : Json → Bool
  | Json.str _ => true
  | Json.num _ => true
  | Json.bool _ => true
  | _ => false

theorem coerceVal_ne_null (v : Json) : coerceVal v ≠ some Json.null := by
  cases v <;> simp [coerceVal]

/-- Counterexample to C10: a live-target item that is not a dict (here the
string `"ab"`) reaches the per-item error branch through the `dict()`
conversion, with an error that is not the missing-`message_number` one. -/
theorem c10_counterexample :
    processLiveItemV1 (Json.str "ab") = Except.error "dict() conversion failed" ∧
    processLiveItemV2 (Json.str "ab") = Except.error "dict() conversion failed" :=
  ⟨rfl, rfl⟩

/-- C10 (amended): `coerce_metadata` is total on any JSON-decoded value —
a non-dict gives an empty mapping, null-valued entries are dropped, flat
scalars pass unchanged, every other value is serialized to its JSON
string — and it never raises; hence for live-target DICT items the
per-item error branch is reachable only via a missing `message_number`,
while a non-dict item also reaches it, through the `dict()` conversion
that precedes coercion. -/
theorem c10_coerce_total_amended :
    (∀ v : Json, (∀ fields, v ≠ Json.obj fields) → coerce_metadata v = []) ∧
    (∀ (fields : Rec) (k : String), (k, Json.null) ∉ coerce_metadata (Json.obj fields)) ∧
    (∀ (fields : Rec) (k : String) (v : Json), (k, v) ∈ fields → isScalar v = true →
      (k, v) ∈ coerce_metadata (Json.obj fields)) ∧
    (∀ (fields : Rec) (k : String) (v : Json), (k, v) ∈ fields → isScalar v = false →
      v ≠ Json.null → (k, Json.str (dumps v)) ∈ coerce_metadata (Json.obj fields)) ∧
    (∀ (fields : Rec) (e : String),
      processLiveItemV1 (Json.obj fields) = Except.error e →
      e = "missing message_number") := by
  refine ⟨?_, ?_, ?_, ?_, ?_⟩
  · intro v hv
    cases v with
    | obj fields => exact absurd rfl (hv fields)
    | null => rfl
    | bool b => rfl
    | num n => rfl
    | str s => rfl
    | arr xs => rfl
  · intro fields k hmem
    rcases List.mem_filterMap.mp hmem with ⟨p, hp, hco⟩
    cases hcv : coerceVal p.2 with
    | none => rw [hcv] at hco; cases hco
    | some w =>
      rw [hcv] at hco
      simp only [Option.map_some', Option.some.injEq, Prod.mk.injEq] at hco
      exact coerceVal_ne_null p.2 (by rw [hcv, hco.2])
  · intro fields k v hmem hsc
    refine List.mem_filterMap.mpr ⟨(k, v), hmem, ?_⟩
    cases v with
    | str s => rfl
    | num n => rfl
    | bool b => rfl
    | null => simp [isScalar] at hsc
    | arr xs => simp [isScalar] at hsc
    | obj fs => simp [isScalar] at hsc
  · intro fields k v hmem hsc hnn
    refine List.mem_filterMap.mpr ⟨(k, v), hmem, ?_⟩
    cases v with
    | null => exact absurd rfl hnn
    | str s => simp [isScalar] at hsc
    | num n => simp [isScalar] at hsc
    | bool b => simp [isScalar] at hsc
    | arr xs => simp [coerceVal]
    | obj fs => simp [coerceVal]
  · intro fields e h
    simp only [processLiveItemV1, pyDict] at h
    cases hl : lookAssoc (eraseAssoc (eraseAssoc fields "embedding") "review_id")
        "message_number" with
    | none =>
      simp only [hl, Except.error.injEq] at h
      exact h.symm
    | some v =>
      simp only [hl] at h
      by_cases hnull : isNull v = true
      · rw [if_pos hnull] at h
        simp only [Except.error.injEq] at h
        exact h.symm
      · rw [if_neg hnull] at h
        exact Except.noConfusion h

/-- Witness for C10 (amended): `coerce_metadata` on a sample dict keeps
the scalar, drops the null, serializes the list; a dict item failing in
the live per-item handler fails only for the missing `message_number`. -/
theorem c10_witness :
    coerce_metadata (Json.num 5) = [] ∧
    ("b", Json.num 3) ∈ coerce_metadata
      (Json.obj [("a", Json.null), ("b", Json.num 3)]) ∧
    ("c", Json.str "[1]") ∈ coerce_metadata
      (Json.obj [("c", Json.arr [Json.num 1])]) ∧
    ("missing message_number" : String) = "missing message_number" :=
  ⟨c10_coerce_total_amended.1 (Json.num 5) (fun _ h => Json.noConfusion h),
    c10_coerce_total_amended.2.2.1 [("a", Json.null), ("b", Json.num 3)] "b"
      (Json.num 3) (by simp) rfl,
    c10_coerce_total_amended.2.2.2.1 [("c", Json.arr [Json.num 1])] "c"
      (Json.arr [Json.num 1]) (by simp) rfl (fun h => Json.noConfusion h),
    c10_coerce_total_amended.2.2.2.2 [("note", Json.str "x")]
      "missing message_number" rfl⟩

/-- Counterexample to C3: one pending-target item WITHOUT a `review_id` —
the upsert id is then a fresh `uuid4` draw, not derived from the item —
re-running the same one-item input doubles the pending collection instead
of leaving it unchanged. -/
theorem c3_counterexample :
    (migrate_pending (migrate_pending ⟨[], 0, 0, 0⟩ [Json.obj []])
        [Json.obj []]).store.length = 2 ∧
    (migrate_pending ⟨[], 0, 0, 0⟩ [Json.obj []]).store.length = 1 :=
  ⟨rfl, rfl⟩

/-- C3 (amended): re-running the same input is idempotent for live-target
batches (both revisions: ids derive from `message_number`) and for
pending-target batches whose items all carry a truthy `review_id`; after
the second run the stores have the same keys, the same size and the same
stored values. A pending item without `review_id` is instead keyed by a
fresh uuid on every run and is duplicated (see the counterexample). -/
theorem c3_migration_idempotent_amended (m : String → List Int)
    (st : LiveStore) (data : List Json) (pinit : PendingRun) (pdata : List Json)
    (hp : ∀ it ∈ pdata, (pendingPure it).isSome) :
    (keysAssoc (migrate_live_v1 m
          ⟨(migrate_live_v1 m ⟨st, 0, 0⟩ data).store, 0, 0⟩ data).store =
        keysAssoc (migrate_live_v1 m ⟨st, 0, 0⟩ data).store ∧
      (migrate_live_v1 m
          ⟨(migrate_live_v1 m ⟨st, 0, 0⟩ data).store, 0, 0⟩ data).store.length =
        (migrate_live_v1 m ⟨st, 0, 0⟩ data).store.length ∧
      ∀ k, lookAssoc (migrate_live_v1 m
          ⟨(migrate_live_v1 m ⟨st, 0, 0⟩ data).store, 0, 0⟩ data).store k =
        lookAssoc (migrate_live_v1 m ⟨st, 0, 0⟩ data).store k) ∧
    (keysAssoc (migrate_live_v2 m
          ⟨(migrate_live_v2 m ⟨st, 0, 0⟩ data).store, 0, 0⟩ data).store =
        keysAssoc (migrate_live_v2 m ⟨st, 0, 0⟩ data).store ∧
      (migrate_live_v2 m
          ⟨(migrate_live_v2 m ⟨st, 0, 0⟩ data).store, 0, 0⟩ data).store.length =
        (migrate_live_v2 m ⟨st, 0, 0⟩ data).store.length ∧
      ∀ k, lookAssoc (migrate_live_v2 m
          ⟨(migrate_live_v2 m ⟨st, 0, 0⟩ data).store, 0, 0⟩ data).store k =
        lookAssoc (migrate_live_v2 m ⟨st, 0, 0⟩ data).store k) ∧
    (keysAssoc (migrate_pending
          ⟨(migrate_pending pinit pdata).store, 0, 0,
            (migrate_pending pinit pdata).ctr⟩ pdata).store =
        keysAssoc (migrate_pending pinit pdata).store ∧
      (migrate_pending
          ⟨(migrate_pending pinit pdata).store, 0, 0,
            (migrate_pending pinit pdata).ctr⟩ pdata).store.length =
        (migrate_pending pinit pdata).store.length ∧
      ∀ k, lookAssoc (migrate_pending
          ⟨(migrate_pending pinit pdata).store, 0, 0,
            (migrate_pending pinit pdata).ctr⟩ pdata).store k =
        lookAssoc (migrate_pending pinit pdata).store k) := by
  have hv1a : (migrate_live_v1 m ⟨st, 0, 0⟩ data).store =
      applyUpserts st (liveOps m processLiveItemV1 data) := by
    rw [migrate_live_v1, migrateLiveCore_eq]
  have hv1b : (migrate_live_v1 m
      ⟨(migrate_live_v1 m ⟨st, 0, 0⟩ data).store, 0, 0⟩ data).store =
      applyUpserts (applyUpserts st (liveOps m processLiveItemV1 data))
        (liveOps m processLiveItemV1 data) := by
    rw [migrate_live_v1, migrateLiveCore_eq, hv1a]
  have hv2a : (migrate_live_v2 m ⟨st, 0, 0⟩ data).store =
      applyUpserts st (liveOps m processLiveItemV2 data) := by
    rw [migrate_live_v2, migrateLiveCore_eq]
  have hv2b : (migrate_live_v2 m
      ⟨(migrate_live_v2 m ⟨st, 0, 0⟩ data).store, 0, 0⟩ data).store =
      applyUpserts (applyUpserts st (liveOps m processLiveItemV2 data))
        (liveOps m processLiveItemV2 data) := by
    rw [migrate_live_v2, migrateLiveCore_eq, hv2a]
  have hpa : (migrate_pending pinit pdata).store =
      applyUpserts pinit.store (pdata.filterMap pendingPure) := by
    rw [migrate_pending_eq pinit pdata hp]
  have hpc : (migrate_pending pinit pdata).ctr = pinit.ctr := by
    rw [migrate_pending_eq pinit pdata hp]
  have hpb : (migrate_pending
      ⟨(migrate_pending pinit pdata).store, 0, 0,
        (migrate_pending pinit pdata).ctr⟩ pdata).store =
      applyUpserts (applyUpserts pinit.store (pdata.filterMap pendingPure))
        (pdata.filterMap pendingPure) := by
    rw [migrate_pending_eq _ pdata hp, hpa]
  have hi1 := applyUpserts_idem (liveOps m processLiveItemV1 data) st
  have hi2 := applyUpserts_idem (liveOps m processLiveItemV2 data) st
  have hi3 := applyUpserts_idem (pdata.filterMap pendingPure) pinit.store
  refine ⟨⟨?_, ?_, ?_⟩, ⟨?_, ?_, ?_⟩, ⟨?_, ?_, ?_⟩⟩
  · rw [hv1b, hv1a]; exact hi1.1
  · rw [hv1b, hv1a]
    have h := congrArg List.length hi1.1
    simpa [keysAssoc] using h
  · intro k; rw [hv1b, hv1a]; exact hi1.2 k
  · rw [hv2b, hv2a]; exact hi2.1
  · rw [hv2b, hv2a]
    have h := congrArg List.length hi2.1
    simpa [keysAssoc] using h
  · intro k; rw [hv2b, hv2a]; exact hi2.2 k
  · rw [hpb, hpa]; exact hi3.1
  · rw [hpb, hpa]
    have h := congrArg List.length hi3.1
    simpa [keysAssoc] using h
  · intro k; rw [hpb, hpa]; exact hi3.2 k

/-- Witness for C3 (amended): one live item keyed by `message_number` and
one pending item carrying `review_id` `"r1"`, each migrated twice: the
stores keep their keys. -/
theorem c3_witness :
    keysAssoc (migrate_live_v2 (fun _ => [0])
        ⟨(migrate_live_v2 (fun _ => [0]) ⟨[], 0, 0⟩
            [Json.obj [("message_number", Json.str "1")]]).store, 0, 0⟩
        [Json.obj [("message_number", Json.str "1")]]).store =
      keysAssoc (migrate_live_v2 (fun _ => [0]) ⟨[], 0, 0⟩
        [Json.obj [("message_number", Json.str "1")]]).store ∧
    keysAssoc (migrate_pending
        ⟨(migrate_pending ⟨[], 0, 0, 0⟩
            [Json.obj [("review_id", Json.str "r1")]]).store, 0, 0,
          (migrate_pending ⟨[], 0, 0, 0⟩
            [Json.obj [("review_id", Json.str "r1")]]).ctr⟩
        [Json.obj [("review_id", Json.str "r1")]]).store =
      keysAssoc (migrate_pending ⟨[], 0, 0, 0⟩
        [Json.obj [("review_id", Json.str "r1")]]).store :=
  ⟨(c3_migration_idempotent_amended (fun _ => [0]) []
      [Json.obj [("message_number", Json.str "1")]] ⟨[], 0, 0, 0⟩
      [Json.obj [("review_id", Json.str "r1")]]
      (by intro it hit; simp at hit; subst hit; rfl)).2.1.1,
    (c3_migration_idempotent_amended (fun _ => [0]) []
      [Json.obj [("message_number", Json.str "1")]] ⟨[], 0, 0, 0⟩
      [Json.obj [("review_id", Json.str "r1")]]
      (by intro it hit; simp at hit; subst hit; rfl)).2.2.1⟩
